import Mathlib

/-!
Shallow embedding of the energy-pipeline script `building.py`.

The script reads per-building CSV files, normalizes them into one combined
series of readings, computes daily/weekly/per-building aggregates, replays
the series into an object model, and writes tabular and text outputs.

Modelling conventions:
* timestamps are integers (seconds since the epoch; `pd.to_datetime` results),
* energy values are exact rationals (idealizing IEEE floats),
* a cell of a parsed CSV is either null (`NaN`/`NaT`), an already parsed
  datetime or number, or a raw value carrying the results that
  `pd.to_datetime(..., errors = "coerce")` and
  `pd.to_numeric(..., errors = "coerce")` would produce for it,
* `pandas.sort_values` is modelled as a stable sort,
* console printing and file I/O side effects are not modelled; the writer is
  modelled by the data it would write.
-/

namespace BuildingPipeline

/-- A cell of a dataframe obtained from `pd.read_csv`.  `raw asDate asNum`
carries the (possibly failing) results of coercing the cell to a datetime or
to a number. -/
inductive Cell where
  | na : Cell
  | dt : Int → Cell
  | num : ℚ → Cell
  | raw : Option Int → Option ℚ → Cell
deriving DecidableEq

/-- `pd.to_datetime(column, errors="coerce")` applied to one cell: unparsable
values become the null marker `NaT`; numbers are reinterpreted as epoch
ticks. -/
def toDatetime : Cell → Cell
  | Cell.na => Cell.na
  | Cell.dt t => Cell.dt t
  | Cell.num q => Cell.dt (Rat.floor q)
  | Cell.raw d _ =>
    match d with
    | some t => Cell.dt t
    | none => Cell.na

/-- `pd.to_numeric(column, errors="coerce")` applied to one cell: unparsable
values become `NaN`; datetimes are reinterpreted as their tick count. -/
def toNumeric : Cell → Cell
  | Cell.na => Cell.na
  | Cell.dt t => Cell.num t
  | Cell.num q => Cell.num q
  | Cell.raw _ n =>
    match n with
    | some q => Cell.num q
    | none => Cell.na

/-- One input file: its name, its header row, and its data rows (one list of
cells per row, positionally matching the header). -/
structure RawFile where
  name : String
  header : List String
  rows : List (List Cell)
deriving DecidableEq

/-- One row of the combined series: columns `timestamp`, `kwh`, `building`. -/
structure Reading where
  ts : Int
  kwh : ℚ
  building : String
deriving DecidableEq

/-- ASCII lower-casing of one character (models `str.lower` on the
ASCII column names the script works with). -/
def pyLower (c : Char) : Char :=
  if 'A' ≤ c ∧ c ≤ 'Z' then Char.ofNat (c.toNat + 32) else c

/-- Lower-case a column name, as in `df.columns = [c.lower() for c in ...]`. -/
def lowerStr (s : String) : String :=
  String.mk (s.data.map pyLower)

/-- Does the token `pat` occur as a contiguous substring of `s`?
Models Python's `pat in s`. -/
def containsTok (pat : List Char) : List Char → Bool
  | [] => pat.isEmpty
  | c :: rest => pat.isPrefixOf (c :: rest) || containsTok pat rest

/-- Predicate used by `[c for c in df.columns if "time" in c or "date" in c]`. -/
def isTimeName (c : String) : Bool :=
  containsTok "time".data c.data || containsTok "date".data c.data

/-- Predicate used by `[c for c in df.columns if "kwh" in c or "energy" in c]`. -/
def isEnergyName (c : String) : Bool :=
  containsTok "kwh".data c.data || containsTok "energy".data c.data

/-- Index of the first element satisfying `p` (Python takes element `[0]` of
the list of matching column names; a column name selects its first position). -/
def firstIdx? (p : α → Bool) : List α → Option Nat
  | [] => none
  | a :: as => if p a then some 0 else (firstIdx? p as).map (· + 1)

/-- Cell of a row at position `i`; positions beyond the row read as null. -/
def cellAt : List Cell → Nat → Cell
  | [], _ => Cell.na
  | c :: _, 0 => c
  | _ :: cs, i + 1 => cellAt cs i

/-- Replace the cell at position `i` by `g` of it (a column-wise
`df[col] = f(df[col])` restricted to one row). -/
def applyAt (g : Cell → Cell) : Nat → List Cell → List Cell
  | _, [] => []
  | 0, c :: cs => g c :: cs
  | i + 1, c :: cs => c :: applyAt g i cs

/-- `df.dropna()` keeps a row iff none of its cells (over all `n` columns of
the frame) is null. -/
def rowNonNull (n : Nat) (row : List Cell) : Bool :=
  (List.range n).all (fun i => decide (cellAt row i ≠ Cell.na))

/-- Timestamp stored in a (post-coercion, non-null) timestamp cell. -/
def getDt : Cell → Int
  | Cell.dt t => t
  | _ => 0

/-- Number stored in a (post-coercion, non-null) energy cell. -/
def getNum : Cell → ℚ
  | Cell.num q => q
  | _ => 0

/-- Fuel-driven core of `pyReplaceStr`; the fuel is the length of the
remaining text, which bounds the recursion. -/
def pyReplaceAux : Nat → List Char → List Char → List Char → List Char
  | 0, _, _, s => s
  | _ + 1, _, _, [] => []
  | fuel + 1, pat, rep, c :: rest =>
    if pat ≠ [] ∧ pat.isPrefixOf (c :: rest) then
      rep ++ pyReplaceAux fuel pat rep ((c :: rest).drop pat.length)
    else
      c :: pyReplaceAux fuel pat rep rest

/-- Python's `s.replace(pat, rep)`: replaces every non-overlapping occurrence
of `pat`, left to right. -/
def pyReplaceStr (s pat rep : String) : String :=
  String.mk (pyReplaceAux s.data.length pat.data rep.data s.data)

/-- Ordered insertion used by the stable-sort model of `sort_values`. -/
def insertBy (le : α → α → Bool) (x : α) : List α → List α
  | [] => [x]
  | y :: ys => if le x y then x :: y :: ys else y :: insertBy le x ys

/-- Stable sort modelling `DataFrame.sort_values`. -/
def sortValuesBy (le : α → α → Bool) (l : List α) : List α :=
  l.foldr (insertBy le) []

/-- Comparator for sorting readings by timestamp (`sort_values("timestamp")`). -/
def leTs (a b : Reading) : Bool :=
  decide (a.ts ≤ b.ts)

/-- The error raised by `[c for c in df.columns if ...][0]` when no column
matches. -/
def errIndex : String := "IndexError: list index out of range"

/-- The error raised at `df[["timestamp", "kwh", "building"]]` when the
timestamp and energy columns coincide, so the rename dict collapses and no
"timestamp" column exists. -/
def errKeyTimestamp : String := "KeyError: timestamp"

/-- The error raised by `summary.sort_values("sum").iloc[0]` on an empty
summary table. -/
def errIloc : String := "IndexError: single positional indexer is out-of-bounds"

/-- Position of the timestamp column: first lower-cased column name containing
"time" or "date". -/
def timeIdx? (f : RawFile) : Option Nat :=
  firstIdx? isTimeName (f.header.map lowerStr)

/-- Position of the energy column: first lower-cased column name containing
"kwh" or "energy". -/
def energyIdx? (f : RawFile) : Option Nat :=
  firstIdx? isEnergyName (f.header.map lowerStr)

/-- Per-file body of `load_all_data`: lower-case columns, find the timestamp
and energy columns, coerce them, drop rows with any null, attach
`building = file.replace(".csv", "")`, keep `(timestamp, kwh, building)`,
sort by timestamp.  Fails like the script does when no column matches, or
when the two selected columns coincide. -/
def loadFile (f : RawFile) : Except String (List Reading) :=
  match timeIdx? f, energyIdx? f with
  | some ti, some ei =>
    if ti = ei then Except.error errKeyTimestamp
    else
      let rows1 := f.rows.map (applyAt toDatetime ti)
      let rows2 := rows1.map (applyAt toNumeric ei)
      let kept := rows2.filter (rowNonNull f.header.length)
      let b := pyReplaceStr f.name ".csv" ""
      Except.ok (sortValuesBy leTs
        (kept.map (fun row => ⟨getDt (cellAt row ti), getNum (cellAt row ei), b⟩)))
  | _, _ => Except.error errIndex

/-- The files the directory scan keeps: `f.endswith(".csv")`. -/
def csvFiles (files : List RawFile) : List RawFile :=
  files.filter (fun f => ".csv".data.isSuffixOf f.name.data)

/-- The loading loop: one cleaned table per CSV file, failing like the script
does if any single file fails. -/
def loadFilesM : List RawFile → Except String (List (List Reading))
  | [] => Except.ok []
  | f :: fs => do
    let d ← loadFile f
    let ds ← loadFilesM fs
    Except.ok (d :: ds)

/-- `load_all_data`: `none` models the `return None` taken when no CSV file was
found; otherwise the concatenation of the per-file tables in directory order. -/
def loadAllData (files : List RawFile) : Except String (Option (List Reading)) := do
  let dfs ← loadFilesM (csvFiles files)
  if dfs.isEmpty then pure none else pure (some dfs.flatten)

/-- Lexicographic comparison of strings by character code, as Python compares
`str` keys when pandas sorts group labels. -/
def lexLeChars : List Char → List Char → Bool
  | [], _ => true
  | _ :: _, [] => false
  | a :: as, b :: bs =>
    if a < b then true else if b < a then false else lexLeChars as bs

/-- Comparator on building names. -/
def leStr (a b : String) : Bool :=
  lexLeChars a.data b.data

/-- The group keys of `df.groupby("building")`: distinct building names in
sorted order (pandas sorts group keys). -/
def buildings (df : List Reading) : List String :=
  sortValuesBy leStr (df.map (fun r => r.building)).dedup

/-- The rows of one group of `df.groupby("building")`, in frame order. -/
def groupRows (b : String) (df : List Reading) : List Reading :=
  df.filter (fun r => decide (r.building = b))

/-- Day bucket of a timestamp under `resample("D")`: midnight-aligned
calendar days. -/
def dayBucket (t : Int) : Int :=
  Int.fdiv t 86400

/-- Week bucket of a timestamp under `resample("W")` (pandas default `W-SUN`:
Monday-to-Sunday weeks). -/
def weekBucket (t : Int) : Int :=
  Int.fdiv (dayBucket t + 3) 7

/-- Label of a day bucket: its midnight. -/
def dayLabel (k : Int) : Int :=
  k * 86400

/-- Label of a week bucket: midnight of its closing Sunday. -/
def weekLabel (k : Int) : Int :=
  (7 * k + 3) * 86400

/-- Minimum of a list of integers (0 for the empty list, which never feeds a
resample because empty groups do not occur). -/
def minInt : List Int → Int
  | [] => 0
  | a :: t => t.foldl min a

/-- Maximum of a list of integers. -/
def maxInt : List Int → Int
  | [] => 0
  | a :: t => t.foldl max a

/-- The integers from `lo` to `hi` inclusive. -/
def intRange (lo hi : Int) : List Int :=
  (List.range (hi - lo + 1).toNat).map (fun i : Nat => lo + (i : Int))

/-- One row of `daily.csv` / `weekly.csv`: columns `building`, `timestamp`,
`kwh`. -/
structure AggRow where
  building : String
  timestamp : Int
  kwh : ℚ
deriving DecidableEq

/-- `series.resample(freq).sum()` for one group: one row per bucket from the
group's first to its last bucket (pandas fills interior empty buckets with
sum 0). -/
def resampleSum (bucket label : Int → Int) (b : String) (g : List Reading) :
    List AggRow :=
  match g with
  | [] => []
  | _ :: _ =>
    let ks := g.map (fun r => bucket r.ts)
    (intRange (minInt ks) (maxInt ks)).map (fun k =>
      ⟨b, label k, ((g.filter (fun r => decide (bucket r.ts = k))).map
        (fun r => r.kwh)).sum⟩)

/-- `daily_data`: group by building, resample to days, sum. -/
def dailyData (df : List Reading) : List AggRow :=
  ((buildings df).map (fun b => resampleSum dayBucket dayLabel b (groupRows b df))).flatten

/-- `weekly_data`: group by building, resample to weeks, sum. -/
def weeklyData (df : List Reading) : List AggRow :=
  ((buildings df).map (fun b => resampleSum weekBucket weekLabel b (groupRows b df))).flatten

/-- One row of `summary.csv`: columns `building`, `sum`, `mean`, `max`,
`min`, `median`. -/
structure SummaryRow where
  building : String
  sum : ℚ
  mean : ℚ
  max : ℚ
  min : ℚ
  median : ℚ
deriving DecidableEq

/-- Maximum of a list of rationals (0 for the empty list; groups are never
empty). -/
def maxQ : List ℚ → ℚ
  | [] => 0
  | a :: t => t.foldl max a

/-- Minimum of a list of rationals. -/
def minQ : List ℚ → ℚ
  | [] => 0
  | a :: t => t.foldl min a

/-- Comparator on rationals, for the sort inside the median. -/
def leQ (a b : ℚ) : Bool :=
  decide (a ≤ b)

/-- Statistical median as pandas computes it: middle element of the sorted
values, or the mean of the two middle elements for an even count. -/
def medianQ (l : List ℚ) : ℚ :=
  let s := sortValuesBy leQ l
  let n := s.length
  if n % 2 = 1 then s.getD (n / 2) 0
  else (s.getD (n / 2 - 1) 0 + s.getD (n / 2) 0) / 2

/-- `building_summary`: per building, sum / mean / max / min / median of that
building's energy values over the whole series. -/
def buildingSummary (df : List Reading) : List SummaryRow :=
  (buildings df).map (fun b =>
    let g := (groupRows b df).map (fun r => r.kwh)
    ⟨b, g.sum, g.sum / (g.length : ℚ), maxQ g, minQ g, medianQ g⟩)

/-- Class `MeterReading`. -/
structure MeterReading where
  timestamp : Int
  kwh : ℚ
deriving DecidableEq

/-- Class `Building`: a name and an ordered list of readings. -/
structure Building where
  name : String
  readings : List MeterReading
deriving DecidableEq

/-- `Building.add_reading`. -/
def Building.addReading (b : Building) (ts : Int) (kwh : ℚ) : Building :=
  ⟨b.name, b.readings ++ [⟨ts, kwh⟩]⟩

/-- `Building.total`: sum of the energy of all recorded readings. -/
def Building.total (b : Building) : ℚ :=
  (b.readings.map (fun r => r.kwh)).sum

/-- `BuildingManager.load_df`: replay the combined series, grouped by
building, into `Building` objects; the dict is keyed in group order. -/
def loadDf (df : List Reading) : List (String × Building) :=
  (buildings df).map (fun name =>
    (name, (groupRows name df).foldl
      (fun b r => b.addReading r.ts r.kwh) (⟨name, []⟩ : Building)))

/-- `BuildingManager.report`: building name to total consumption. -/
def report (m : List (String × Building)) : List (String × ℚ) :=
  m.map (fun p => (p.1, p.2.total))

/-- Round a rational to the nearest integer, ties to even (the rounding of
Python's fixed-point formatting). -/
def roundHalfEven (x : ℚ) : Int :=
  let f := Rat.floor x
  let r := x - (f : ℚ)
  if r < 1 / 2 then f
  else if 1 / 2 < r then f + 1
  else if f % 2 = 0 then f else f + 1

/-- Python's `f"{q:.2f}"` on an ideal number: sign, integer part, a point, and
exactly two fractional digits. -/
def formatFixed2 (q : ℚ) : String :=
  let n := roundHalfEven (q * 100)
  let m := n.natAbs
  let intStr := (if n < 0 then "-" else "") ++ Nat.repr (m / 100)
  String.mk (intStr.data ++ '.' :: [Nat.digitChar (m / 10 % 10), Nat.digitChar (m % 10)])

/-- Number of characters after the last point of a rendered number. -/
def decimalsAfterLastDot (s : String) : Nat :=
  (s.data.reverse.takeWhile (fun c => decide (c ≠ '.'))).length

/-- Comparator for `summary.sort_values("sum", ascending=False)`. -/
def leSumDesc (a b : SummaryRow) : Bool :=
  decide (b.sum ≤ a.sum)

/-- The two lines `save_results` writes to `summary.txt`; fails like
`iloc[0]` does on an empty summary table. -/
def saveResultsText (summary : List SummaryRow) : Except String (List String) :=
  let total := (summary.map (fun r => r.sum)).sum
  match sortValuesBy leSumDesc summary with
  | [] => Except.error errIloc
  | top :: _ => Except.ok
      ["Total Campus Consumption: " ++ formatFixed2 total ++ " kWh",
       "Highest Building: " ++ top.building ++ " (" ++ formatFixed2 top.sum ++ " kWh)"]

/-- Everything `main` computes and writes after a successful load. -/
structure Outputs where
  cleaned : List Reading
  daily : List AggRow
  weekly : List AggRow
  summary : List SummaryRow
  managerReport : List (String × ℚ)
  summaryTxt : List String
deriving DecidableEq

/-- `main`: load, return early on `None`, otherwise aggregate, build the
object model, and write the outputs. -/
def runPipeline (files : List RawFile) : Except String (Option Outputs) := do
  match ← loadAllData files with
  | none => pure none
  | some df => do
    let daily := dailyData df
    let weekly := weeklyData df
    let summary := buildingSummary df
    let rep := report (loadDf df)
    let txt ← saveResultsText summary
    pure (some ⟨df, daily, weekly, summary, rep, txt⟩)

/-- The combined series is globally ordered by timestamp. -/
def sortedByTs (l : List Reading) : Prop :=
  l.Pairwise (fun a b => a.ts ≤ b.ts)

/-- Row-level specification of the loader that the amended claim C7 states:
a row survives iff its timestamp cell parses, its energy cell parses, and no
other column of the row is null; surviving rows keep exactly the parsed
timestamp, the parsed number, and the building tag. -/
def loaderKeptRowSpec (f : RawFile) (ti ei : Nat) (row : List Cell) :
    Option Reading :=
  match toDatetime (cellAt row ti), toNumeric (cellAt row ei) with
  | Cell.dt t, Cell.num q =>
    if (List.range f.header.length).all
        (fun i => decide (i = ti ∨ i = ei ∨ cellAt row i ≠ Cell.na)) then
      some ⟨t, q, pyReplaceStr f.name ".csv" ""⟩
    else none
  | _, _ => none

/-- Total energy of one building over the whole combined series. -/
def groupTotal (b : String) (df : List Reading) : ℚ :=
  ((groupRows b df).map (fun r => r.kwh)).sum

/-- The largest value of the summary table's `sum` column. -/
def maxSumCol (s : List SummaryRow) : ℚ :=
  maxQ (s.map (fun r => r.sum))

/-! ### Helper lemmas: the stable sort -/

theorem insertBy_perm (le : α → α → Bool) (x : α) (l : List α) :
    List.Perm (insertBy le x l) (x :: l) := by
  induction l with
  | nil => simp [insertBy]
  | cons y ys ih =>
    simp only [insertBy]
    by_cases h : le x y = true
    · simp [h]
    · simp only [h, if_false]
      exact ((ih.cons y).trans (List.Perm.swap x y ys))

theorem sortValuesBy_perm (le : α → α → Bool) (l : List α) :
    List.Perm (sortValuesBy le l) l := by
  induction l with
  | nil => simp [sortValuesBy]
  | cons a l ih =>
    have h : sortValuesBy le (a :: l) = insertBy le a (sortValuesBy le l) := rfl
    rw [h]
    exact (insertBy_perm le a (sortValuesBy le l)).trans (ih.cons a)

theorem mem_sortValuesBy (le : α → α → Bool) (l : List α) (a : α) :
    a ∈ sortValuesBy le l ↔ a ∈ l :=
  (sortValuesBy_perm le l).mem_iff

theorem pairwise_insertBy (le : α → α → Bool)
    (htot : ∀ a b, le a b = true ∨ le b a = true)
    (htrans : ∀ a b c, le a b = true → le b c = true → le a c = true)
    (x : α) (l : List α) (hl : l.Pairwise (fun a b => le a b = true)) :
    (insertBy le x l).Pairwise (fun a b => le a b = true) := by
  induction l with
  | nil => simp [insertBy]
  | cons y ys ih =>
    rw [List.pairwise_cons] at hl
    simp only [insertBy]
    by_cases h : le x y = true
    · rw [if_pos h]
      refine List.Pairwise.cons ?_ (List.Pairwise.cons hl.1 hl.2)
      intro b hb
      rw [List.mem_cons] at hb
      rcases hb with rfl | hb
      · exact h
      · exact htrans x y b h (hl.1 b hb)
    · rw [if_neg h]
      refine List.Pairwise.cons ?_ (ih hl.2)
      intro b hb
      have hb' := (insertBy_perm le x ys).mem_iff.mp hb
      rw [List.mem_cons] at hb'
      rcases hb' with rfl | hb'
      · rcases htot b y with h' | h'
        · exact absurd h' h
        · exact h'
      · exact hl.1 b hb'

theorem pairwise_sortValuesBy (le : α → α → Bool)
    (htot : ∀ a b, le a b = true ∨ le b a = true)
    (htrans : ∀ a b c, le a b = true → le b c = true → le a c = true)
    (l : List α) :
    (sortValuesBy le l).Pairwise (fun a b => le a b = true) := by
  induction l with
  | nil => simp [sortValuesBy]
  | cons a l ih => exact pairwise_insertBy le htot htrans a (sortValuesBy le l) ih

/-! ### Helper lemmas: sums over partitions -/

theorem sum_map_filter_split {α : Type} (l : List α) (p : α → Bool) (v : α → ℚ) :
    ((l.filter p).map v).sum + ((l.filter (fun a => !(p a))).map v).sum
      = (l.map v).sum := by
  induction l with
  | nil => simp
  | cons a t ih =>
    cases hpa : p a
    · simp only [List.filter_cons, hpa, Bool.not_false, if_true, if_false,
        Bool.false_eq_true, List.map_cons, List.sum_cons]
      rw [← ih]
      ring
    · simp only [List.filter_cons, hpa, Bool.not_true, if_true, if_false,
        Bool.false_eq_true, List.map_cons, List.sum_cons]
      rw [← ih]
      ring

theorem sum_partition {α K : Type} [DecidableEq K]
    (keys : List K) (hnd : keys.Nodup) (l : List α) (f : α → K) (v : α → ℚ)
    (hcov : ∀ a ∈ l, f a ∈ keys) :
    (keys.map (fun k => ((l.filter (fun a => decide (f a = k))).map v).sum)).sum
      = (l.map v).sum := by
  induction keys generalizing l with
  | nil =>
    have hl : l = [] := by
      cases l with
      | nil => rfl
      | cons a t => exact absurd (hcov a (by simp)) (by simp)
    subst hl; simp
  | cons k ks ih =>
    rw [List.nodup_cons] at hnd
    simp only [List.map_cons, List.sum_cons]
    have hstep : ∀ k' ∈ ks,
        l.filter (fun a => decide (f a = k'))
          = (l.filter (fun a => !(decide (f a = k)))).filter
              (fun a => decide (f a = k')) := by
      intro k' hk'
      rw [List.filter_filter]
      apply List.filter_congr
      intro a _
      have hk'k : k' ≠ k := fun h => hnd.1 (h ▸ hk')
      by_cases hfa : f a = k'
      · have hfk : f a ≠ k := by rw [hfa]; exact hk'k
        simp [hfa, hfk, hk'k]
      · simp [hfa]
    have hmapeq :
        (ks.map (fun k' => ((l.filter (fun a => decide (f a = k'))).map v).sum))
          = (ks.map (fun k' =>
              (((l.filter (fun a => !(decide (f a = k)))).filter
                (fun a => decide (f a = k'))).map v).sum)) := by
      apply List.map_congr_left
      intro k' hk'
      rw [hstep k' hk']
    rw [hmapeq, ih hnd.2]
    · exact sum_map_filter_split l (fun a => decide (f a = k)) v
    · intro a ha
      rw [List.mem_filter] at ha
      have hmem := hcov a ha.1
      rw [List.mem_cons] at hmem
      rcases hmem with h | h
      · exfalso
        have hb := ha.2
        simp [h] at hb
      · exact h

/-! ### Helper lemmas: integer ranges and fold extrema -/

theorem foldl_min_le (t : List Int) (a : Int) :
    t.foldl min a ≤ a ∧ ∀ x ∈ t, t.foldl min a ≤ x := by
  induction t generalizing a with
  | nil => simp
  | cons b u ih =>
    simp only [List.foldl_cons]
    obtain ⟨h1, h2⟩ := ih (min a b)
    refine ⟨le_trans h1 (min_le_left a b), ?_⟩
    intro x hx
    rw [List.mem_cons] at hx
    rcases hx with rfl | hx
    · exact le_trans h1 (min_le_right a x)
    · exact h2 x hx

theorem le_foldl_max (t : List Int) (a : Int) :
    a ≤ t.foldl max a ∧ ∀ x ∈ t, x ≤ t.foldl max a := by
  induction t generalizing a with
  | nil => simp
  | cons b u ih =>
    simp only [List.foldl_cons]
    obtain ⟨h1, h2⟩ := ih (max a b)
    refine ⟨le_trans (le_max_left a b) h1, ?_⟩
    intro x hx
    rw [List.mem_cons] at hx
    rcases hx with rfl | hx
    · exact le_trans (le_max_right a x) h1
    · exact h2 x hx

theorem minInt_le (l : List Int) (x : Int) (hx : x ∈ l) : minInt l ≤ x := by
  cases l with
  | nil => simp at hx
  | cons a t =>
    rw [List.mem_cons] at hx
    rcases hx with rfl | hx
    · exact (foldl_min_le t x).1
    · exact (foldl_min_le t a).2 x hx

theorem le_maxInt (l : List Int) (x : Int) (hx : x ∈ l) : x ≤ maxInt l := by
  cases l with
  | nil => simp at hx
  | cons a t =>
    rw [List.mem_cons] at hx
    rcases hx with rfl | hx
    · exact (le_foldl_max t x).1
    · exact (le_foldl_max t a).2 x hx

theorem mem_intRange (k lo hi : Int) :
    k ∈ intRange lo hi ↔ lo ≤ k ∧ k ≤ hi := by
  simp only [intRange, List.mem_map, List.mem_range]
  constructor
  · rintro ⟨i, hilt, rfl⟩
    constructor
    · omega
    · omega
  · rintro ⟨h1, h2⟩
    refine ⟨(k - lo).toNat, ?_, ?_⟩
    · omega
    · omega

theorem intRange_nodup (lo hi : Int) : (intRange lo hi).Nodup := by
  have hinj : Function.Injective (fun i : ℕ => lo + (i : Int)) := by
    intro a b h
    simp only at h
    omega
  exact (List.nodup_range _).map hinj


theorem filter_flatten_eq (L : List (List α)) (p : α → Bool) :
    L.flatten.filter p = (L.map (List.filter p)).flatten := by
  induction L with
  | nil => rfl
  | cons l ls ih =>
    simp only [List.flatten_cons, List.filter_append, List.map_cons, ih]

theorem buildings_nodup (df : List Reading) : (buildings df).Nodup :=
  (sortValuesBy_perm leStr _).nodup_iff.mpr (List.nodup_dedup _)

theorem mem_buildings (df : List Reading) (b : String) :
    b ∈ buildings df ↔ b ∈ df.map (fun r => r.building) := by
  rw [buildings, mem_sortValuesBy, List.mem_dedup]

theorem groupRows_building (b : String) (df : List Reading) :
    ∀ r ∈ groupRows b df, r.building = b := by
  intro r hr
  rw [groupRows, List.mem_filter] at hr
  simpa using hr.2

theorem groupRows_ne_nil (b : String) (df : List Reading)
    (hb : b ∈ df.map (fun r => r.building)) : groupRows b df ≠ [] := by
  rw [List.mem_map] at hb
  obtain ⟨r, hr, hrb⟩ := hb
  intro hnil
  have : r ∈ groupRows b df := by
    rw [groupRows, List.mem_filter]
    exact ⟨hr, by simp [hrb]⟩
  rw [hnil] at this
  simp at this

theorem resampleSum_building (bucket label : Int → Int) (b : String)
    (g : List Reading) : ∀ row ∈ resampleSum bucket label b g, row.building = b := by
  intro row hrow
  cases g with
  | nil => simp [resampleSum] at hrow
  | cons r t =>
    simp only [resampleSum, List.mem_map] at hrow
    obtain ⟨k, _, rfl⟩ := hrow
    rfl

theorem resampleSum_kwh_sum (bucket label : Int → Int) (b : String)
    (g : List Reading) (hg : g ≠ []) :
    ((resampleSum bucket label b g).map (fun a => a.kwh)).sum
      = (g.map (fun r => r.kwh)).sum := by
  cases g with
  | nil => exact absurd rfl hg
  | cons r t =>
    simp only [resampleSum, List.map_map]
    have hcomp :
        ((fun a : AggRow => a.kwh) ∘ (fun k =>
          (⟨b, label k, (((r :: t).filter (fun x => decide (bucket x.ts = k))).map
            (fun x => x.kwh)).sum⟩ : AggRow)))
        = (fun k => (((r :: t).filter (fun x => decide (bucket x.ts = k))).map
            (fun x => x.kwh)).sum) := rfl
    rw [hcomp]
    exact sum_partition _ (intRange_nodup _ _) (r :: t) (fun x => bucket x.ts)
      (fun x => x.kwh)
      (fun a ha => by
        rw [mem_intRange]
        constructor
        · exact minInt_le _ _ (List.mem_map_of_mem (fun x => bucket x.ts) ha)
        · exact le_maxInt _ _ (List.mem_map_of_mem (fun x => bucket x.ts) ha))

theorem sum_single_key (keys : List String) (G : String → ℚ) (b : String)
    (hb : b ∈ keys) (hnd : keys.Nodup)
    (h0 : ∀ k ∈ keys, k ≠ b → G k = 0) :
    (keys.map G).sum = G b := by
  induction keys with
  | nil => simp at hb
  | cons k ks ih =>
    rw [List.nodup_cons] at hnd
    rw [List.mem_cons] at hb
    simp only [List.map_cons, List.sum_cons]
    rcases hb with rfl | hb
    · have : ∀ k' ∈ ks, G k' = 0 := by
        intro k' hk'
        exact h0 k' (by simp [hk']) (fun h => hnd.1 (h ▸ hk'))
      have hzero : (ks.map G).sum = 0 := by
        rw [List.sum_eq_zero]
        intro x hx
        rw [List.mem_map] at hx
        obtain ⟨k', hk', rfl⟩ := hx
        exact this k' hk'
      rw [hzero, add_zero]
    · have hkb : k ≠ b := fun h => hnd.1 (h ▸ hb)
      rw [h0 k (by simp) hkb, zero_add]
      exact ih hb hnd.2 (fun k' hk' h => h0 k' (by simp [hk']) h)

theorem agg_filter_sum (bucket label : Int → Int) (df : List Reading) (b : String)
    (hb : b ∈ df.map (fun r => r.building)) :
    (((((buildings df).map (fun k => resampleSum bucket label k (groupRows k df))).flatten).filter
        (fun a => decide (a.building = b))).map (fun a => a.kwh)).sum
      = groupTotal b df := by
  rw [filter_flatten_eq, List.map_map]
  have hcomp :
      (List.filter (fun a => decide (a.building = b)) ∘
        (fun k => resampleSum bucket label k (groupRows k df)))
      = (fun k => (resampleSum bucket label k (groupRows k df)).filter
          (fun a => decide (a.building = b))) := rfl
  rw [hcomp, List.map_flatten, List.sum_flatten, List.map_map, List.map_map]
  have hcomp2 :
      ((List.sum ∘ List.map (fun a : AggRow => a.kwh)) ∘
        (fun k => (resampleSum bucket label k (groupRows k df)).filter
          (fun a => decide (a.building = b))))
      = (fun k => (((resampleSum bucket label k (groupRows k df)).filter
          (fun a => decide (a.building = b))).map (fun a => a.kwh)).sum) := rfl
  rw [hcomp2]
  rw [sum_single_key (buildings df) _ b ((mem_buildings df b).mpr hb) (buildings_nodup df)]
  · have hself : (resampleSum bucket label b (groupRows b df)).filter
        (fun a => decide (a.building = b)) = resampleSum bucket label b (groupRows b df) := by
      apply List.filter_eq_self.mpr
      intro a ha
      simp [resampleSum_building bucket label b (groupRows b df) a ha]
    rw [hself]
    exact resampleSum_kwh_sum bucket label b (groupRows b df) (groupRows_ne_nil b df hb)
  · intro k hk hkb
    have hnil : (resampleSum bucket label k (groupRows k df)).filter
        (fun a => decide (a.building = b)) = [] := by
      apply List.filter_eq_nil_iff.mpr
      intro a ha
      simp [resampleSum_building bucket label k (groupRows k df) a ha, hkb]
    rw [hnil]
    simp

theorem find_map_keys {β : Type} (keys : List String) (g : String → β)
    (name : β → String) (hname : ∀ k, name (g k) = k) (b : String)
    (hb : b ∈ keys) :
    (keys.map g).find? (fun r => decide (name r = b)) = some (g b) := by
  induction keys with
  | nil => simp at hb
  | cons k ks ih =>
    rw [List.mem_cons] at hb
    simp only [List.map_cons, List.find?_cons]
    rcases hb with rfl | hb
    · simp [hname]
    · by_cases hkb : k = b
      · subst hkb
        simp [hname]
      · have : (decide (name (g k) = b)) = false := by
          simp [hname, hkb]
        rw [this]
        exact ih hb

/-- C1: for every building in the combined series, summing its daily buckets,
summing its weekly buckets, and the `sum` field of its `building_summary` row
all equal that building's grand total. -/
theorem c1_bucket_totals_agree (df : List Reading) (b : String)
    (hb : b ∈ df.map (fun r => r.building)) :
    (((dailyData df).filter (fun a => decide (a.building = b))).map
        (fun a => a.kwh)).sum = groupTotal b df
    ∧ (((weeklyData df).filter (fun a => decide (a.building = b))).map
        (fun a => a.kwh)).sum = groupTotal b df
    ∧ ∃ row, (buildingSummary df).find? (fun r => decide (r.building = b)) = some row
        ∧ row.sum = groupTotal b df := by
  refine ⟨agg_filter_sum dayBucket dayLabel df b hb,
          agg_filter_sum weekBucket weekLabel df b hb, ?_⟩
  have hfind := find_map_keys (buildings df)
    (fun k =>
      (⟨k, ((groupRows k df).map (fun r => r.kwh)).sum,
        ((groupRows k df).map (fun r => r.kwh)).sum
          / (((groupRows k df).map (fun r => r.kwh)).length : ℚ),
        maxQ ((groupRows k df).map (fun r => r.kwh)),
        minQ ((groupRows k df).map (fun r => r.kwh)),
        medianQ ((groupRows k df).map (fun r => r.kwh))⟩ : SummaryRow))
    (fun r => r.building) (fun k => rfl) b ((mem_buildings df b).mpr hb)
  exact ⟨_, hfind, rfl⟩

theorem c1_witness :
    "bldgA" ∈ ([⟨0, 10, "bldgA"⟩, ⟨43200, 5, "bldgA"⟩, ⟨21600, 20, "bldgB"⟩] :
      List Reading).map (fun r => r.building)
    ∧ ((((dailyData [⟨0, 10, "bldgA"⟩, ⟨43200, 5, "bldgA"⟩, ⟨21600, 20, "bldgB"⟩]).filter
          (fun a => decide (a.building = "bldgA"))).map (fun a => a.kwh)).sum
        = groupTotal "bldgA" [⟨0, 10, "bldgA"⟩, ⟨43200, 5, "bldgA"⟩, ⟨21600, 20, "bldgB"⟩]
      ∧ (((weeklyData [⟨0, 10, "bldgA"⟩, ⟨43200, 5, "bldgA"⟩, ⟨21600, 20, "bldgB"⟩]).filter
          (fun a => decide (a.building = "bldgA"))).map (fun a => a.kwh)).sum
        = groupTotal "bldgA" [⟨0, 10, "bldgA"⟩, ⟨43200, 5, "bldgA"⟩, ⟨21600, 20, "bldgB"⟩]
      ∧ ∃ row, (buildingSummary [⟨0, 10, "bldgA"⟩, ⟨43200, 5, "bldgA"⟩, ⟨21600, 20, "bldgB"⟩]).find?
            (fun r => decide (r.building = "bldgA")) = some row
          ∧ row.sum = groupTotal "bldgA"
              [⟨0, 10, "bldgA"⟩, ⟨43200, 5, "bldgA"⟩, ⟨21600, 20, "bldgB"⟩]) :=
  ⟨by decide, c1_bucket_totals_agree
    [⟨0, 10, "bldgA"⟩, ⟨43200, 5, "bldgA"⟩, ⟨21600, 20, "bldgB"⟩] "bldgA" (by decide)⟩


theorem lookup_map_keys {β : Type} (keys : List String) (w : String → β)
    (b : String) (hb : b ∈ keys) :
    (keys.map (fun k => (k, w k))).lookup b = some (w b) := by
  induction keys with
  | nil => simp at hb
  | cons k ks ih =>
    rw [List.mem_cons] at hb
    by_cases hkb : b = k
    · subst hkb
      simp [List.lookup]
    · simp only [List.map_cons, List.lookup]
      have : (b == k) = false := by simp [hkb]
      rw [this]
      rcases hb with rfl | hb
      · exact absurd rfl hkb
      · exact ih hb

theorem manager_building_readings (name : String) (g : List Reading) :
    (g.foldl (fun b r => b.addReading r.ts r.kwh) (⟨name, []⟩ : Building))
      = ⟨name, g.map (fun r => ⟨r.ts, r.kwh⟩)⟩ := by
  suffices h : ∀ init : List MeterReading,
      (g.foldl (fun b r => b.addReading r.ts r.kwh) (⟨name, init⟩ : Building))
        = ⟨name, init ++ g.map (fun r => ⟨r.ts, r.kwh⟩)⟩ by
    simpa using h []
  induction g with
  | nil => intro init; simp
  | cons r t ih =>
    intro init
    simp only [List.foldl_cons, List.map_cons]
    have haddr : (⟨name, init⟩ : Building).addReading r.ts r.kwh
        = ⟨name, init ++ [⟨r.ts, r.kwh⟩]⟩ := rfl
    rw [haddr, ih (init ++ [(⟨r.ts, r.kwh⟩ : MeterReading)])]
    simp

/-- C3: the per-building total reported by `BuildingManager.report` equals the
`sum` field of that building's `building_summary` row. -/
theorem c3_manager_matches_summary (df : List Reading) (b : String)
    (hb : b ∈ df.map (fun r => r.building)) :
    ∃ t row, (report (loadDf df)).lookup b = some t
      ∧ (buildingSummary df).find? (fun r => decide (r.building = b)) = some row
      ∧ t = row.sum := by
  have hbk : b ∈ buildings df := (mem_buildings df b).mpr hb
  have hrep : (report (loadDf df)).lookup b
      = some ((groupRows b df).map (fun r => r.kwh)).sum := by
    have h1 : report (loadDf df)
        = (buildings df).map (fun name =>
            (name, ((groupRows name df).foldl
              (fun bd r => bd.addReading r.ts r.kwh) (⟨name, []⟩ : Building)).total)) := by
      simp only [report, loadDf, List.map_map]
      rfl
    rw [h1]
    rw [lookup_map_keys (buildings df)
      (fun name => ((groupRows name df).foldl
        (fun bd r => bd.addReading r.ts r.kwh) (⟨name, []⟩ : Building)).total) b hbk]
    rw [manager_building_readings b (groupRows b df)]
    simp [Building.total, List.map_map]
    rfl
  have hfind := find_map_keys (buildings df)
    (fun k =>
      (⟨k, ((groupRows k df).map (fun r => r.kwh)).sum,
        ((groupRows k df).map (fun r => r.kwh)).sum
          / (((groupRows k df).map (fun r => r.kwh)).length : ℚ),
        maxQ ((groupRows k df).map (fun r => r.kwh)),
        minQ ((groupRows k df).map (fun r => r.kwh)),
        medianQ ((groupRows k df).map (fun r => r.kwh))⟩ : SummaryRow))
    (fun r => r.building) (fun k => rfl) b hbk
  exact ⟨_, _, hrep, hfind, rfl⟩

theorem c3_witness :
    "bldgB" ∈ ([⟨0, 10, "bldgA"⟩, ⟨21600, 20, "bldgB"⟩] :
      List Reading).map (fun r => r.building)
    ∧ ∃ t row, (report (loadDf [⟨0, 10, "bldgA"⟩, ⟨21600, 20, "bldgB"⟩])).lookup "bldgB" = some t
      ∧ (buildingSummary [⟨0, 10, "bldgA"⟩, ⟨21600, 20, "bldgB"⟩]).find?
          (fun r => decide (r.building = "bldgB")) = some row
      ∧ t = row.sum :=
  ⟨by decide, c3_manager_matches_summary
    [⟨0, 10, "bldgA"⟩, ⟨21600, 20, "bldgB"⟩] "bldgB" (by decide)⟩


theorem foldl_max_cons (l : List ℚ) (a b : ℚ) :
    l.foldl max (max a b) = max a (l.foldl max b) := by
  induction l generalizing b with
  | nil => simp
  | cons c t ih =>
    simp only [List.foldl_cons]
    rw [max_assoc, ih]

theorem maxQ_cons (a : ℚ) (l : List ℚ) (hl : l ≠ []) :
    maxQ (a :: l) = max a (maxQ l) := by
  cases l with
  | nil => exact absurd rfl hl
  | cons b t =>
    simp only [maxQ, List.foldl_cons]
    exact foldl_max_cons t a b

theorem sortDesc_head_find (s : List SummaryRow) (hne : s ≠ []) :
    ∃ top rest, sortValuesBy leSumDesc s = top :: rest ∧
      s.find? (fun r => decide (r.sum = maxSumCol s)) = some top := by
  induction s with
  | nil => exact absurd rfl hne
  | cons a l ih =>
    cases l with
    | nil =>
      refine ⟨a, [], rfl, ?_⟩
      simp [List.find?, maxSumCol, maxQ]
    | cons b t =>
      obtain ⟨topl, restl, hsort, hfind⟩ := ih (by simp)
      have htopl_max : topl.sum = maxSumCol (b :: t) := by
        have := List.find?_some hfind
        simpa using this
      have hsort' : sortValuesBy leSumDesc (a :: b :: t)
          = insertBy leSumDesc a (topl :: restl) := by
        have h : sortValuesBy leSumDesc (a :: b :: t)
            = insertBy leSumDesc a (sortValuesBy leSumDesc (b :: t)) := rfl
        rw [h, hsort]
      have hmax : maxSumCol (a :: b :: t) = max a.sum (maxSumCol (b :: t)) := by
        simp only [maxSumCol, List.map_cons]
        rw [maxQ_cons _ _ (by simp)]
      by_cases hcase : topl.sum ≤ a.sum
      · refine ⟨a, topl :: restl, ?_, ?_⟩
        · rw [hsort']
          simp [insertBy, leSumDesc, hcase]
        · have h : maxSumCol (a :: b :: t) = a.sum := by
            rw [hmax, ← htopl_max]
            exact max_eq_left hcase
          rw [List.find?_cons]
          simp [h]
      · push_neg at hcase
        refine ⟨topl, insertBy leSumDesc a restl, ?_, ?_⟩
        · rw [hsort']
          simp [insertBy, leSumDesc, not_le.mpr hcase]
        · have hm : maxSumCol (a :: b :: t) = maxSumCol (b :: t) := by
            rw [hmax, ← htopl_max]
            exact max_eq_right (le_of_lt hcase)
          rw [List.find?_cons]
          have hpa : (decide (a.sum = maxSumCol (a :: b :: t))) = false := by
            simp only [hm, ← htopl_max]
            simp [ne_of_lt hcase]
          rw [hpa]
          simp only [hm]
          exact hfind

theorem digitChar_ne_dot (n : Nat) (h : n < 10) : Nat.digitChar n ≠ '.' := by
  interval_cases n <;> decide

theorem decimals_of_shape (x : List Char) (d1 d2 : Char)
    (h1 : d1 ≠ '.') (h2 : d2 ≠ '.') :
    decimalsAfterLastDot (String.mk (x ++ '.' :: [d1, d2])) = 2 := by
  have hdata : (String.mk (x ++ '.' :: [d1, d2])).data = x ++ '.' :: [d1, d2] := rfl
  simp only [decimalsAfterLastDot, hdata, List.reverse_append]
  simp [List.takeWhile, h1, h2]

theorem formatFixed2_decimals (q : ℚ) :
    decimalsAfterLastDot (formatFixed2 q) = 2 := by
  simp only [formatFixed2]
  apply decimals_of_shape
  · exact digitChar_ne_dot _ (Nat.mod_lt _ (by norm_num))
  · exact digitChar_ne_dot _ (Nat.mod_lt _ (by norm_num))

/-- C4: `summary.txt` is exactly two lines: the total of the summary's `sum`
column, and the name and `sum` of the first row attaining the maximal `sum`,
both formatted with two decimal places. -/
theorem c4_summary_text (s : List SummaryRow) (hne : s ≠ []) :
    ∃ top, s.find? (fun r => decide (r.sum = maxSumCol s)) = some top
      ∧ saveResultsText s = Except.ok
          ["Total Campus Consumption: "
              ++ formatFixed2 ((s.map (fun r => r.sum)).sum) ++ " kWh",
           "Highest Building: " ++ top.building
              ++ " (" ++ formatFixed2 top.sum ++ " kWh)"]
      ∧ decimalsAfterLastDot (formatFixed2 ((s.map (fun r => r.sum)).sum)) = 2
      ∧ decimalsAfterLastDot (formatFixed2 top.sum) = 2 := by
  obtain ⟨top, rest, hsort, hfind⟩ := sortDesc_head_find s hne
  refine ⟨top, hfind, ?_, formatFixed2_decimals _, formatFixed2_decimals _⟩
  simp only [saveResultsText, hsort]

theorem c4_witness :
    ([⟨"bldgA", 15, 15 / 2, 10, 5, 15 / 2⟩, ⟨"bldgB", 20, 20, 20, 20, 20⟩] :
      List SummaryRow) ≠ []
    ∧ ∃ top, ([⟨"bldgA", 15, 15 / 2, 10, 5, 15 / 2⟩, ⟨"bldgB", 20, 20, 20, 20, 20⟩] :
          List SummaryRow).find?
          (fun r => decide (r.sum = maxSumCol
            [⟨"bldgA", 15, 15 / 2, 10, 5, 15 / 2⟩, ⟨"bldgB", 20, 20, 20, 20, 20⟩])) = some top
      ∧ saveResultsText
          [⟨"bldgA", 15, 15 / 2, 10, 5, 15 / 2⟩, ⟨"bldgB", 20, 20, 20, 20, 20⟩] = Except.ok
          ["Total Campus Consumption: "
              ++ formatFixed2 ((([⟨"bldgA", 15, 15 / 2, 10, 5, 15 / 2⟩,
                  ⟨"bldgB", 20, 20, 20, 20, 20⟩] : List SummaryRow).map
                    (fun r => r.sum)).sum) ++ " kWh",
           "Highest Building: " ++ top.building
              ++ " (" ++ formatFixed2 top.sum ++ " kWh)"]
      ∧ decimalsAfterLastDot (formatFixed2 ((([⟨"bldgA", 15, 15 / 2, 10, 5, 15 / 2⟩,
            ⟨"bldgB", 20, 20, 20, 20, 20⟩] : List SummaryRow).map
              (fun r => r.sum)).sum)) = 2
      ∧ decimalsAfterLastDot (formatFixed2 top.sum) = 2 :=
  ⟨by decide, c4_summary_text
    [⟨"bldgA", 15, 15 / 2, 10, 5, 15 / 2⟩, ⟨"bldgB", 20, 20, 20, 20, 20⟩] (by decide)⟩


theorem firstIdx?_lt_length (p : α → Bool) (l : List α) (i : Nat)
    (h : firstIdx? p l = some i) : i < l.length := by
  induction l generalizing i with
  | nil => simp [firstIdx?] at h
  | cons a as ih =>
    simp only [firstIdx?] at h
    by_cases hpa : p a = true
    · rw [if_pos hpa] at h
      injection h with h
      subst h
      simp
    · rw [if_neg hpa] at h
      cases hrec : firstIdx? p as with
      | none => rw [hrec] at h; simp at h
      | some j =>
        rw [hrec] at h
        simp only [Option.map_some'] at h
        injection h with h
        subst h
        have := ih j hrec
        simp
        omega

theorem cellAt_applyAt_self (g : Cell → Cell) (hg : g Cell.na = Cell.na)
    (i : Nat) (row : List Cell) :
    cellAt (applyAt g i row) i = g (cellAt row i) := by
  induction row generalizing i with
  | nil => simp [applyAt, cellAt, hg]
  | cons c cs ih =>
    cases i with
    | zero => rfl
    | succ j => simpa [applyAt, cellAt] using ih j

theorem cellAt_applyAt_ne (g : Cell → Cell) (i j : Nat) (hij : i ≠ j)
    (row : List Cell) :
    cellAt (applyAt g j row) i = cellAt row i := by
  induction row generalizing i j with
  | nil => simp [applyAt]
  | cons c cs ih =>
    cases j with
    | zero =>
      cases i with
      | zero => exact absurd rfl hij
      | succ i' => rfl
    | succ j' =>
      cases i with
      | zero => rfl
      | succ i' => simpa [applyAt, cellAt] using ih i' j' (by omega)

theorem toDatetime_shape (c : Cell) :
    toDatetime c = Cell.na ∨ ∃ t, toDatetime c = Cell.dt t := by
  cases c with
  | na => exact Or.inl rfl
  | dt t => exact Or.inr ⟨t, rfl⟩
  | num q => exact Or.inr ⟨Rat.floor q, rfl⟩
  | raw d n =>
    cases d with
    | none => exact Or.inl rfl
    | some t => exact Or.inr ⟨t, rfl⟩

theorem toNumeric_shape (c : Cell) :
    toNumeric c = Cell.na ∨ ∃ q, toNumeric c = Cell.num q := by
  cases c with
  | na => exact Or.inl rfl
  | dt t => exact Or.inr ⟨t, rfl⟩
  | num q => exact Or.inr ⟨q, rfl⟩
  | raw d n =>
    cases n with
    | none => exact Or.inl rfl
    | some q => exact Or.inr ⟨q, rfl⟩

theorem rowNonNull_iff (n : Nat) (row : List Cell) :
    rowNonNull n row = true ↔ ∀ i < n, cellAt row i ≠ Cell.na := by
  simp [rowNonNull, List.all_eq_true, List.mem_range]

theorem loadFile_ok_elim (f : RawFile) (rs : List Reading)
    (h : loadFile f = Except.ok rs) :
    ∃ ti ei, timeIdx? f = some ti ∧ energyIdx? f = some ei ∧ ti ≠ ei ∧
      rs = sortValuesBy leTs
        (((((f.rows.map (applyAt toDatetime ti)).map (applyAt toNumeric ei)).filter
            (rowNonNull f.header.length))).map
          (fun row => ⟨getDt (cellAt row ti), getNum (cellAt row ei),
            pyReplaceStr f.name ".csv" ""⟩)) := by
  cases hti : timeIdx? f with
  | none => simp [loadFile, hti] at h
  | some ti =>
    cases hei : energyIdx? f with
    | none => simp [loadFile, hti, hei] at h
    | some ei =>
      by_cases htiei : ti = ei
      · simp [loadFile, hti, hei, htiei] at h
      · refine ⟨ti, ei, rfl, rfl, htiei, ?_⟩
        simp only [loadFile, hti, hei, if_neg htiei, Except.ok.injEq] at h
        exact h.symm

theorem loadFile_mem (f : RawFile) (rs : List Reading) (r : Reading)
    (h : loadFile f = Except.ok rs) (hr : r ∈ rs) :
    ∃ ti ei, timeIdx? f = some ti ∧ energyIdx? f = some ei ∧ ti ≠ ei ∧
      ∃ row ∈ f.rows,
        toDatetime (cellAt row ti) = Cell.dt r.ts ∧
        toNumeric (cellAt row ei) = Cell.num r.kwh ∧
        r.building = pyReplaceStr f.name ".csv" "" := by
  obtain ⟨ti, ei, hti, hei, htiei, hrs⟩ := loadFile_ok_elim f rs h
  subst hrs
  rw [mem_sortValuesBy, List.mem_map] at hr
  obtain ⟨row2, hrow2, hbuild⟩ := hr
  rw [List.mem_filter] at hrow2
  obtain ⟨hrow2m, hnn⟩ := hrow2
  rw [List.mem_map] at hrow2m
  obtain ⟨row1, hrow1, hrow21⟩ := hrow2m
  rw [List.mem_map] at hrow1
  obtain ⟨row0, hrow0, hrow10⟩ := hrow1
  subst hrow21
  subst hrow10
  have hti_lt : ti < f.header.length := by
    have := firstIdx?_lt_length _ _ _ hti
    simpa using this
  have hei_lt : ei < f.header.length := by
    have := firstIdx?_lt_length _ _ _ hei
    simpa using this
  have hcell_ti : cellAt (applyAt toNumeric ei (applyAt toDatetime ti row0)) ti
      = toDatetime (cellAt row0 ti) := by
    rw [cellAt_applyAt_ne _ _ _ htiei, cellAt_applyAt_self _ rfl]
  have hcell_ei : cellAt (applyAt toNumeric ei (applyAt toDatetime ti row0)) ei
      = toNumeric (cellAt row0 ei) := by
    rw [cellAt_applyAt_self _ rfl, cellAt_applyAt_ne _ _ _ (fun hx => htiei hx.symm)]
  have hnn' := (rowNonNull_iff _ _).mp hnn
  have hti_ne := hnn' ti hti_lt
  have hei_ne := hnn' ei hei_lt
  rw [hcell_ti] at hti_ne
  rw [hcell_ei] at hei_ne
  rcases toDatetime_shape (cellAt row0 ti) with hsh | ⟨t, hsh⟩
  · exact absurd hsh hti_ne
  rcases toNumeric_shape (cellAt row0 ei) with hsh2 | ⟨q, hsh2⟩
  · exact absurd hsh2 hei_ne
  refine ⟨ti, ei, hti, hei, htiei, row0, hrow0, ?_, ?_, ?_⟩
  · rw [hsh]
    subst hbuild
    simp only [hcell_ti, hsh, getDt]
  · rw [hsh2]
    subst hbuild
    simp only [hcell_ei, hsh2, getNum]
  · subst hbuild
    rfl

theorem loadFile_ok_sorted (f : RawFile) (rs : List Reading)
    (h : loadFile f = Except.ok rs) :
    rs.Pairwise (fun a b => a.ts ≤ b.ts) := by
  obtain ⟨ti, ei, _, _, _, hrs⟩ := loadFile_ok_elim f rs h
  subst hrs
  have hp := pairwise_sortValuesBy leTs
    (by
      intro a b
      rcases le_total a.ts b.ts with hle | hle
      · exact Or.inl (by simp [leTs, hle])
      · exact Or.inr (by simp [leTs, hle]))
    (by
      intro a b c hab hbc
      simp only [leTs, decide_eq_true_eq] at hab hbc ⊢
      exact le_trans hab hbc)
    (((((f.rows.map (applyAt toDatetime ti)).map (applyAt toNumeric ei)).filter
        (rowNonNull f.header.length))).map
      (fun row => ⟨getDt (cellAt row ti), getNum (cellAt row ei),
        pyReplaceStr f.name ".csv" ""⟩))
  exact hp.imp (fun hab => by simpa [leTs] using hab)


theorem loadFilesM_ok_length (fs : List RawFile) (ds : List (List Reading))
    (h : loadFilesM fs = Except.ok ds) : ds.length = fs.length := by
  induction fs generalizing ds with
  | nil =>
    simp only [loadFilesM, Except.ok.injEq] at h
    subst h
    rfl
  | cons f fs ih =>
    simp only [loadFilesM] at h
    cases hf : loadFile f with
    | error e => rw [hf] at h; exact Except.noConfusion h
    | ok d =>
      rw [hf] at h
      cases hrec : loadFilesM fs with
      | error e => rw [hrec] at h; exact Except.noConfusion h
      | ok ds' =>
        rw [hrec] at h
        have h' : Except.ok (d :: ds') = Except.ok ds := h
        injection h' with h''
        subst h''
        simp [ih ds' hrec]

theorem loadFilesM_mem (fs : List RawFile) (ds : List (List Reading))
    (h : loadFilesM fs = Except.ok ds) (d : List Reading) (hd : d ∈ ds) :
    ∃ f ∈ fs, loadFile f = Except.ok d := by
  induction fs generalizing ds with
  | nil =>
    simp only [loadFilesM, Except.ok.injEq] at h
    subst h
    simp at hd
  | cons f fs ih =>
    simp only [loadFilesM] at h
    cases hf : loadFile f with
    | error e => rw [hf] at h; exact Except.noConfusion h
    | ok d' =>
      rw [hf] at h
      cases hrec : loadFilesM fs with
      | error e => rw [hrec] at h; exact Except.noConfusion h
      | ok ds' =>
        rw [hrec] at h
        have h' : Except.ok (d' :: ds') = Except.ok ds := h
        injection h' with h''
        subst h''
        rw [List.mem_cons] at hd
        rcases hd with rfl | hd
        · exact ⟨f, by simp, hf⟩
        · obtain ⟨f', hf', hok⟩ := ih ds' hrec hd
          exact ⟨f', by simp [hf'], hok⟩

theorem loadFilesM_error (fs : List RawFile) (e : String)
    (h : loadFilesM fs = Except.error e) :
    ∃ f ∈ fs, loadFile f = Except.error e := by
  induction fs with
  | nil => simp [loadFilesM] at h
  | cons f fs ih =>
    simp only [loadFilesM] at h
    cases hf : loadFile f with
    | error e' =>
      rw [hf] at h
      have h' : Except.error (α := List (List Reading)) e' = Except.error e := h
      injection h' with h''
      subst h''
      exact ⟨f, by simp, hf⟩
    | ok d =>
      rw [hf] at h
      cases hrec : loadFilesM fs with
      | error e' =>
        rw [hrec] at h
        have h' : Except.error (α := List (List Reading)) e' = Except.error e := h
        injection h' with h''
        subst h''
        obtain ⟨f', hf', hok⟩ := ih hrec
        exact ⟨f', by simp [hf'], hok⟩
      | ok ds' => rw [hrec] at h; exact Except.noConfusion h

theorem loadAllData_cases (files : List RawFile) :
    (∃ e, loadFilesM (csvFiles files) = Except.error e
        ∧ loadAllData files = Except.error e)
    ∨ (∃ ds, loadFilesM (csvFiles files) = Except.ok ds
        ∧ loadAllData files
            = if ds.isEmpty then Except.ok none else Except.ok (some ds.flatten)) := by
  cases h : loadFilesM (csvFiles files) with
  | error e =>
    refine Or.inl ⟨e, rfl, ?_⟩
    simp only [loadAllData, h]
    rfl
  | ok ds =>
    refine Or.inr ⟨ds, rfl, ?_⟩
    simp only [loadAllData, h]
    rfl

/-- C2: every row of the combined series comes from a source row whose
timestamp cell parses to a valid datetime and whose energy cell parses to a
number; no other row survives loading. -/
theorem c2_rows_valid (files : List RawFile) (l : List Reading)
    (h : loadAllData files = Except.ok (some l)) :
    ∀ r ∈ l, ∃ f ∈ files, ∃ row ∈ f.rows, ∃ ti ei,
      timeIdx? f = some ti ∧ energyIdx? f = some ei ∧
      toDatetime (cellAt row ti) = Cell.dt r.ts ∧
      toNumeric (cellAt row ei) = Cell.num r.kwh := by
  intro r hr
  rcases loadAllData_cases files with ⟨e, _, herr⟩ | ⟨ds, hok, hval⟩
  · rw [herr] at h; simp at h
  · rw [hval] at h
    by_cases hds : ds.isEmpty
    · rw [if_pos hds] at h; simp at h
    · rw [if_neg hds] at h
      simp only [Except.ok.injEq, Option.some.injEq] at h
      subst h
      rw [List.mem_flatten] at hr
      obtain ⟨part, hpart, hrp⟩ := hr
      obtain ⟨f, hf, hfok⟩ := loadFilesM_mem _ _ hok part hpart
      have hff : f ∈ files := List.mem_of_mem_filter hf
      obtain ⟨ti, ei, hti, hei, _, row, hrow, h1, h2, _⟩ :=
        loadFile_mem f part r hfok hrp
      exact ⟨f, hff, row, hrow, ti, ei, hti, hei, h1, h2⟩

theorem c2_witness :
    loadAllData [⟨"a.csv", ["time", "kwh"], [[Cell.raw (some 3) none, Cell.num 2]]⟩]
      = Except.ok (some [⟨3, 2, "a"⟩])
    ∧ ∀ r ∈ ([⟨3, 2, "a"⟩] : List Reading),
      ∃ f ∈ [(⟨"a.csv", ["time", "kwh"],
          [[Cell.raw (some 3) none, Cell.num 2]]⟩ : RawFile)],
        ∃ row ∈ f.rows, ∃ ti ei,
          timeIdx? f = some ti ∧ energyIdx? f = some ei ∧
          toDatetime (cellAt row ti) = Cell.dt r.ts ∧
          toNumeric (cellAt row ei) = Cell.num r.kwh :=
  ⟨rfl, c2_rows_valid
    [⟨"a.csv", ["time", "kwh"], [[Cell.raw (some 3) none, Cell.num 2]]⟩]
    [⟨3, 2, "a"⟩] rfl⟩

/-- C5 counterexample: two files whose timestamps interleave produce a
combined series that is not globally sorted by timestamp. -/
theorem c5_counterexample :
    loadAllData [⟨"a.csv", ["time", "kwh"], [[Cell.raw (some 10) none, Cell.num 1]]⟩,
                 ⟨"b.csv", ["time", "kwh"], [[Cell.raw (some 5) none, Cell.num 2]]⟩]
      = Except.ok (some [⟨10, 1, "a"⟩, ⟨5, 2, "b"⟩])
    ∧ ¬ sortedByTs [⟨10, 1, "a"⟩, ⟨5, 2, "b"⟩] := by
  refine ⟨rfl, ?_⟩
  intro hs
  simp [sortedByTs, List.pairwise_cons] at hs

/-- C5 amended: each file's block of the combined series is sorted by
timestamp; the combined series is the concatenation of the blocks in
directory order, not a globally resorted list. -/
theorem c5_amended_blockwise_sorted (files : List RawFile)
    (parts : List (List Reading))
    (h : loadFilesM (csvFiles files) = Except.ok parts) (hne : parts ≠ []) :
    loadAllData files = Except.ok (some parts.flatten)
    ∧ ∀ p ∈ parts, p.Pairwise (fun a b => a.ts ≤ b.ts) := by
  constructor
  · have hemp : parts.isEmpty = false := by
      cases parts with
      | nil => exact absurd rfl hne
      | cons p ps => rfl
    rcases loadAllData_cases files with ⟨e, herr, _⟩ | ⟨ds, hok, hval⟩
    · rw [herr] at h; simp at h
    · rw [hok, Except.ok.injEq] at h
      subst h
      rw [hval, hemp]
      simp
  · intro p hp
    obtain ⟨f, _, hfok⟩ := loadFilesM_mem _ _ h p hp
    exact loadFile_ok_sorted f p hfok

theorem c5_amended_witness :
    loadFilesM (csvFiles
        [⟨"a.csv", ["time", "kwh"], [[Cell.raw (some 10) none, Cell.num 1]]⟩,
         ⟨"b.csv", ["time", "kwh"], [[Cell.raw (some 5) none, Cell.num 2]]⟩])
      = Except.ok [[⟨10, 1, "a"⟩], [⟨5, 2, "b"⟩]]
    ∧ (loadAllData
        [⟨"a.csv", ["time", "kwh"], [[Cell.raw (some 10) none, Cell.num 1]]⟩,
         ⟨"b.csv", ["time", "kwh"], [[Cell.raw (some 5) none, Cell.num 2]]⟩]
      = Except.ok (some ([[⟨10, 1, "a"⟩], [⟨5, 2, "b"⟩]] : List (List Reading)).flatten)
    ∧ ∀ p ∈ ([[⟨10, 1, "a"⟩], [⟨5, 2, "b"⟩]] : List (List Reading)),
        p.Pairwise (fun a b => a.ts ≤ b.ts)) :=
  ⟨rfl, c5_amended_blockwise_sorted
    [⟨"a.csv", ["time", "kwh"], [[Cell.raw (some 10) none, Cell.num 1]]⟩,
     ⟨"b.csv", ["time", "kwh"], [[Cell.raw (some 5) none, Cell.num 2]]⟩]
    [[⟨10, 1, "a"⟩], [⟨5, 2, "b"⟩]] rfl (by decide)⟩


theorem loadFile_not_errIndex (f : RawFile)
    (ht : (timeIdx? f).isSome) (he : (energyIdx? f).isSome) :
    loadFile f ≠ Except.error errIndex := by
  rw [Option.isSome_iff_exists] at ht he
  obtain ⟨ti, hti⟩ := ht
  obtain ⟨ei, hei⟩ := he
  intro h
  by_cases htiei : ti = ei
  · simp only [loadFile, hti, hei, if_pos htiei] at h
    have h' : errKeyTimestamp = errIndex := by
      injection h
    exact absurd h' (by decide)
  · simp only [loadFile, hti, hei, if_neg htiei] at h
    exact Except.noConfusion h

/-- C8: when every input file has a recognizable timestamp column and a
recognizable energy column, the column lookup never raises; a file lacking
one makes the run die with the index-out-of-range error rather than being
skipped. -/
theorem c8_column_lookup (files : List RawFile)
    (h : ∀ f ∈ files, (timeIdx? f).isSome ∧ (energyIdx? f).isSome) :
    loadAllData files ≠ Except.error errIndex
    ∧ loadAllData [⟨"a.csv", ["time"], []⟩] = Except.error errIndex := by
  constructor
  · intro hcontra
    rcases loadAllData_cases files with ⟨e, herr, hval⟩ | ⟨ds, hok, hval⟩
    · rw [hval] at hcontra
      injection hcontra with he
      subst he
      obtain ⟨f, hf, hfe⟩ := loadFilesM_error _ _ herr
      have hff : f ∈ files := List.mem_of_mem_filter hf
      exact loadFile_not_errIndex f (h f hff).1 (h f hff).2 hfe
    · rw [hval] at hcontra
      by_cases hds : ds.isEmpty
      · rw [if_pos hds] at hcontra; exact Except.noConfusion hcontra
      · rw [if_neg hds] at hcontra; exact Except.noConfusion hcontra
  · rfl

theorem c8_witness :
    (∀ f ∈ [(⟨"a.csv", ["time", "kwh"], []⟩ : RawFile)],
      (timeIdx? f).isSome ∧ (energyIdx? f).isSome)
    ∧ (loadAllData [⟨"a.csv", ["time", "kwh"], []⟩] ≠ Except.error errIndex
    ∧ loadAllData [⟨"a.csv", ["time"], []⟩] = Except.error errIndex) :=
  ⟨by decide, c8_column_lookup [⟨"a.csv", ["time", "kwh"], []⟩] (by decide)⟩

/-- C9: with no `.csv` file in the folder, `load_all_data` returns the
"nothing to process" marker and the pipeline stops without producing any
outputs. -/
theorem c9_no_files (files : List RawFile)
    (h : ∀ f ∈ files, ¬ (".csv".data.isSuffixOf f.name.data = true)) :
    loadAllData files = Except.ok none ∧ runPipeline files = Except.ok none := by
  have hcsv : csvFiles files = [] := by
    rw [csvFiles, List.filter_eq_nil_iff]
    exact h
  have hload : loadAllData files = Except.ok none := by
    simp only [loadAllData, hcsv]
    rfl
  refine ⟨hload, ?_⟩
  simp only [runPipeline, hload]
  rfl

theorem c9_witness :
    (∀ f ∈ [(⟨"notes.txt", ["time", "kwh"], []⟩ : RawFile)],
      ¬ (".csv".data.isSuffixOf f.name.data = true))
    ∧ (loadAllData [⟨"notes.txt", ["time", "kwh"], []⟩] = Except.ok none
    ∧ runPipeline [⟨"notes.txt", ["time", "kwh"], []⟩] = Except.ok none) :=
  ⟨by decide, c9_no_files [⟨"notes.txt", ["time", "kwh"], []⟩] (by decide)⟩

/-- C10: `load_all_data` answers the "no data" marker exactly when the folder
holds no `.csv` file; a CSV file all of whose rows are dropped still counts as
processed, and the loader then yields an empty combined series instead. -/
theorem c10_none_iff_no_csv (files : List RawFile) :
    (loadAllData files = Except.ok none ↔ csvFiles files = [])
    ∧ loadAllData [⟨"bad.csv", ["time", "kwh"], [[Cell.raw none none, Cell.num 1]]⟩]
        = Except.ok (some []) := by
  constructor
  · constructor
    · intro h
      rcases loadAllData_cases files with ⟨e, herr, hval⟩ | ⟨ds, hok, hval⟩
      · rw [hval] at h; exact Except.noConfusion h
      · rw [hval] at h
        by_cases hds : ds.isEmpty
        · have hlen := loadFilesM_ok_length _ _ hok
          rw [List.isEmpty_iff] at hds
          subst hds
          cases hcf : csvFiles files with
          | nil => rfl
          | cons g gs => rw [hcf] at hlen; simp at hlen
        · rw [if_neg hds] at h
          injection h with h'
          exact Option.noConfusion h'
    · intro h
      simp only [loadAllData, h]
      rfl
  · rfl


/-- C6 counterexample: the file name `a.csv.csv` ends in `.csv`, its name sans
trailing extension is `a.csv`, yet the loader tags its rows with building
`a`, because `str.replace` removes every occurrence of `.csv`. -/
theorem c6_counterexample :
    loadAllData [⟨"a.csv.csv", ["time", "kwh"], [[Cell.raw (some 0) none, Cell.num 1]]⟩]
      = Except.ok (some [⟨0, 1, "a"⟩])
    ∧ String.mk (("a.csv.csv" : String).data.take
        (("a.csv.csv" : String).data.length - 4)) = "a.csv"
    ∧ ("a" : String) ≠ "a.csv" := by
  refine ⟨rfl, ?_, by decide⟩
  decide

theorem pyReplaceAux_stem (stem : List Char) (hstem : ∀ c ∈ stem, c ≠ '.') :
    pyReplaceAux (stem ++ ".csv".data).length ".csv".data [] (stem ++ ".csv".data)
      = stem := by
  induction stem with
  | nil => decide
  | cons c rest ih =>
    have hc : c ≠ '.' := hstem c (by simp)
    have hdat : (".csv" : String).data = ['.', 'c', 's', 'v'] := rfl
    rw [hdat] at ih ⊢
    rw [List.cons_append]
    have hlen : (c :: (rest ++ ['.', 'c', 's', 'v'])).length
        = (rest ++ ['.', 'c', 's', 'v']).length + 1 := rfl
    rw [hlen]
    have hpref : (['.', 'c', 's', 'v'].isPrefixOf
        (c :: (rest ++ ['.', 'c', 's', 'v']))) = false := by
      simp only [List.isPrefixOf]
      have hbe : ('.' == c) = false := by
        simp [Ne.symm hc]
      rw [hbe]
      rfl
    simp only [pyReplaceAux]
    rw [if_neg]
    · rw [ih (fun x hx => hstem x (by simp [hx]))]
    · intro hcontra
      rw [hpref] at hcontra
      exact Bool.noConfusion hcontra.2

/-- C6 amended: the building tag is the file name with every occurrence of
`.csv` removed (Python `str.replace`); when the name is a dot-free stem
followed by one `.csv` extension this coincides with the name sans
extension. -/
theorem c6_amended_building_tag (f : RawFile) (rs : List Reading) (r : Reading)
    (stem : List Char) (h : loadFile f = Except.ok rs) (hr : r ∈ rs)
    (hname : f.name.data = stem ++ ".csv".data)
    (hstem : ∀ c ∈ stem, c ≠ '.') :
    r.building = pyReplaceStr f.name ".csv" "" ∧ r.building.data = stem := by
  obtain ⟨ti, ei, _, _, _, row, _, _, _, hb⟩ := loadFile_mem f rs r h hr
  refine ⟨hb, ?_⟩
  rw [hb]
  show pyReplaceAux f.name.data.length ".csv".data "".data f.name.data = stem
  have hempty : ("" : String).data = [] := rfl
  rw [hempty, hname]
  exact pyReplaceAux_stem stem hstem

theorem c6_amended_witness :
    loadFile ⟨"bldgA.csv", ["time", "kwh"], [[Cell.raw (some 0) none, Cell.num 1]]⟩
      = Except.ok [⟨0, 1, "bldgA"⟩]
    ∧ (("bldgA.csv" : String).data = "bldgA".data ++ ".csv".data)
    ∧ (∀ c ∈ ("bldgA" : String).data, c ≠ '.')
    ∧ (("bldgA" : String) = pyReplaceStr "bldgA.csv" ".csv" ""
    ∧ ("bldgA" : String).data = "bldgA".data) :=
  ⟨rfl, by decide, by decide,
    c6_amended_building_tag
      ⟨"bldgA.csv", ["time", "kwh"], [[Cell.raw (some 0) none, Cell.num 1]]⟩
      [⟨0, 1, "bldgA"⟩] ⟨0, 1, "bldgA"⟩ "bldgA".data rfl (by decide)
      (by decide) (by decide)⟩


/-- C7 counterexample: a row whose selected timestamp and energy cells are
both valid is nevertheless dropped when a third, unselected column holds a
null, so the unselected columns are not ignored. -/
theorem c7_counterexample :
    loadFile ⟨"a.csv", ["time", "kwh", "note"],
        [[Cell.raw (some 0) none, Cell.num 1, Cell.na]]⟩ = Except.ok []
    ∧ toDatetime (cellAt [Cell.raw (some 0) none, Cell.num 1, Cell.na] 0)
        = Cell.dt 0
    ∧ toNumeric (cellAt [Cell.raw (some 0) none, Cell.num 1, Cell.na] 1)
        = Cell.num 1
    ∧ loadFile ⟨"a.csv", ["time", "kwh", "note"],
        [[Cell.raw (some 0) none, Cell.num 1, Cell.num 0]]⟩
      = Except.ok [⟨0, 1, "a"⟩] :=
  ⟨rfl, rfl, rfl, rfl⟩

theorem map_filter_map_eq_filterMap {α β γ : Type} (l : List α) (T : α → β)
    (P : β → Bool) (h : β → γ) :
    ((l.map T).filter P).map h
      = l.filterMap (fun a => if P (T a) then some (h (T a)) else none) := by
  induction l with
  | nil => rfl
  | cons a t ih =>
    simp only [List.map_cons, List.filter_cons, List.filterMap_cons]
    cases hpa : P (T a)
    · simp only [hpa, if_false, Bool.false_eq_true, ih]
    · simp only [hpa, if_true, List.map_cons, ih]

theorem keptRow_pointwise (f : RawFile) (ti ei : Nat)
    (hti_lt : ti < f.header.length) (hei_lt : ei < f.header.length)
    (hne : ti ≠ ei) (row : List Cell) :
    (if rowNonNull f.header.length (applyAt toNumeric ei (applyAt toDatetime ti row))
     then some ((⟨getDt (cellAt (applyAt toNumeric ei (applyAt toDatetime ti row)) ti),
                  getNum (cellAt (applyAt toNumeric ei (applyAt toDatetime ti row)) ei),
                  pyReplaceStr f.name ".csv" ""⟩ : Reading))
     else none) = loaderKeptRowSpec f ti ei row := by
  have hcell_ti : cellAt (applyAt toNumeric ei (applyAt toDatetime ti row)) ti
      = toDatetime (cellAt row ti) := by
    rw [cellAt_applyAt_ne _ _ _ hne, cellAt_applyAt_self _ rfl]
  have hcell_ei : cellAt (applyAt toNumeric ei (applyAt toDatetime ti row)) ei
      = toNumeric (cellAt row ei) := by
    rw [cellAt_applyAt_self _ rfl, cellAt_applyAt_ne _ _ _ (fun hx => hne hx.symm)]
  have hcell_other : ∀ i, i ≠ ti → i ≠ ei →
      cellAt (applyAt toNumeric ei (applyAt toDatetime ti row)) i = cellAt row i := by
    intro i h1 h2
    rw [cellAt_applyAt_ne _ _ _ h2, cellAt_applyAt_ne _ _ _ h1]
  rcases toDatetime_shape (cellAt row ti) with hsh1 | ⟨t, hsh1⟩
  · have hrnn : rowNonNull f.header.length
        (applyAt toNumeric ei (applyAt toDatetime ti row)) = false := by
      rw [Bool.eq_false_iff]
      intro hcontra
      have := (rowNonNull_iff _ _).mp hcontra ti hti_lt
      rw [hcell_ti, hsh1] at this
      exact this rfl
    rw [hrnn, if_neg (by simp)]
    simp only [loaderKeptRowSpec, hsh1]
  · rcases toNumeric_shape (cellAt row ei) with hsh2 | ⟨q, hsh2⟩
    · have hrnn : rowNonNull f.header.length
          (applyAt toNumeric ei (applyAt toDatetime ti row)) = false := by
        rw [Bool.eq_false_iff]
        intro hcontra
        have := (rowNonNull_iff _ _).mp hcontra ei hei_lt
        rw [hcell_ei, hsh2] at this
        exact this rfl
      rw [hrnn, if_neg (by simp)]
      simp only [loaderKeptRowSpec, hsh1, hsh2]
    · have hP : rowNonNull f.header.length
          (applyAt toNumeric ei (applyAt toDatetime ti row))
          = (List.range f.header.length).all
              (fun i => decide (i = ti ∨ i = ei ∨ cellAt row i ≠ Cell.na)) := by
        have hiff : rowNonNull f.header.length
            (applyAt toNumeric ei (applyAt toDatetime ti row)) = true
            ↔ ((List.range f.header.length).all
                (fun i => decide (i = ti ∨ i = ei ∨ cellAt row i ≠ Cell.na))) = true := by
          rw [rowNonNull_iff, List.all_eq_true]
          constructor
          · intro hall i hi
            rw [List.mem_range] at hi
            by_cases h1 : i = ti
            · simp [h1]
            · by_cases h2 : i = ei
              · simp [h2]
              · have := hall i hi
                rw [hcell_other i h1 h2] at this
                simp [h1, h2, this]
          · intro hall i hi
            by_cases h1 : i = ti
            · subst h1
              rw [hcell_ti, hsh1]
              simp
            · by_cases h2 : i = ei
              · subst h2
                rw [hcell_ei, hsh2]
                simp
              · have := hall i (by rw [List.mem_range]; exact hi)
                rw [decide_eq_true_eq] at this
                rcases this with hx | hx | hx
                · exact absurd hx h1
                · exact absurd hx h2
                · rw [hcell_other i h1 h2]
                  exact hx
        cases hx : (List.range f.header.length).all
            (fun i => decide (i = ti ∨ i = ei ∨ cellAt row i ≠ Cell.na)) with
        | true => exact hiff.mpr hx
        | false =>
          rw [Bool.eq_false_iff]
          intro hcontra
          rw [hiff.mp hcontra] at hx
          exact Bool.noConfusion hx
      rw [hcell_ti, hcell_ei, hsh1, hsh2, hP]
      simp only [loaderKeptRowSpec, hsh1, hsh2, getDt, getNum]

/-- C7 amended: the loader keeps the first time-like and first energy-like
columns as announced, takes values only from them, but a null anywhere in a
row, including in an unselected column, still drops that row. -/
theorem c7_amended_loader_rows (f : RawFile) (ti ei : Nat)
    (hti : timeIdx? f = some ti) (hei : energyIdx? f = some ei) (hne : ti ≠ ei) :
    loadFile f = Except.ok
      (sortValuesBy leTs (f.rows.filterMap (loaderKeptRowSpec f ti ei))) := by
  have hti_lt : ti < f.header.length := by
    have := firstIdx?_lt_length _ _ _ hti
    simpa using this
  have hei_lt : ei < f.header.length := by
    have := firstIdx?_lt_length _ _ _ hei
    simpa using this
  simp only [loadFile, hti, hei, if_neg hne]
  apply congrArg Except.ok
  apply congrArg (sortValuesBy leTs)
  rw [List.map_map]
  rw [map_filter_map_eq_filterMap f.rows
    ((applyAt toNumeric ei) ∘ (applyAt toDatetime ti))
    (rowNonNull f.header.length)
    (fun row => (⟨getDt (cellAt row ti), getNum (cellAt row ei),
      pyReplaceStr f.name ".csv" ""⟩ : Reading))]
  apply congrArg (List.filterMap · f.rows)
  funext row
  exact keptRow_pointwise f ti ei hti_lt hei_lt hne row

theorem c7_amended_witness :
    timeIdx? ⟨"a.csv", ["time", "kwh", "note"],
        [[Cell.raw (some 4) none, Cell.num 7, Cell.num 0]]⟩ = some 0
    ∧ energyIdx? ⟨"a.csv", ["time", "kwh", "note"],
        [[Cell.raw (some 4) none, Cell.num 7, Cell.num 0]]⟩ = some 1
    ∧ (0 : Nat) ≠ 1
    ∧ loadFile ⟨"a.csv", ["time", "kwh", "note"],
        [[Cell.raw (some 4) none, Cell.num 7, Cell.num 0]]⟩
      = Except.ok (sortValuesBy leTs
          (([[Cell.raw (some 4) none, Cell.num 7, Cell.num 0]] : List (List Cell)).filterMap
            (loaderKeptRowSpec ⟨"a.csv", ["time", "kwh", "note"],
              [[Cell.raw (some 4) none, Cell.num 7, Cell.num 0]]⟩ 0 1))) :=
  ⟨rfl, rfl, by decide,
    c7_amended_loader_rows
      ⟨"a.csv", ["time", "kwh", "note"],
        [[Cell.raw (some 4) none, Cell.num 7, Cell.num 0]]⟩ 0 1 rfl rfl (by decide)⟩

end BuildingPipeline
